import Mathlib

/-!
Shallow embedding of the logic core of the Student Finance Tracker
(`scripts/validators.js`, `scripts/search.js`, `scripts/app.js` (state
container part) and the localStorage adapter) together with theorems
checking the specification claims against it.

Conventions of the embedding:
* Strings are handled as `List Char` internally (`String.data`); the
  public entry points take `String`.
* JS numbers are modelled as exact rationals `ℚ`.  All amounts the
  validators accept have at most two decimal digits, so the arithmetic
  the claims exercise is exact in JS as well.
* The wall clock (`performance.now`), the browser regex engine and the
  locale-aware string comparison are external effects; they are passed
  in as explicit parameters of the definitions that use them.
* Functions that can fail return `Option`/a result structure, mirroring
  the `{ valid, error }` objects of the source.
-/

namespace SFT

/-! ### JS character classes (used by the regexes of `validators.js`) -/

/-- The character class `\s` of JS regexes and of `String.prototype.trim`. -/
def isJsWs (c : Char) : Bool :=
  c = ' ' || c = '\t' || c = '\n' || c = '\r' ||
  c.toNat = 11 || c.toNat = 12 || c.toNat = 0xa0 || c.toNat = 0x1680 ||
  (0x2000 ≤ c.toNat && c.toNat ≤ 0x200a) ||
  c.toNat = 0x2028 || c.toNat = 0x2029 || c.toNat = 0x202f ||
  c.toNat = 0x205f || c.toNat = 0x3000 || c.toNat = 0xfeff

/-- The character class `\w` of JS regexes: ASCII letters, digits, underscore. -/
def isWordChar (c : Char) : Bool :=
  ('a' ≤ c && c ≤ 'z') || ('A' ≤ c && c ≤ 'Z') || ('0' ≤ c && c ≤ '9') || c = '_'

/-- ASCII decimal digit. -/
def isDigit (c : Char) : Bool := '0' ≤ c && c ≤ '9'

/-- ASCII letter (the class `[A-Za-z]` of the category regex). -/
def isAsciiLetter (c : Char) : Bool := ('a' ≤ c && c ≤ 'z') || ('A' ≤ c && c ≤ 'Z')

/-- Line terminators, which the `.` of a JS regex does not match. -/
def isLineTerm (c : Char) : Bool :=
  c.toNat = 0x0a || c.toNat = 0x0d || c.toNat = 0x2028 || c.toNat = 0x2029

/-- ASCII lower-casing, enough for `\w` words (they are ASCII-only). -/
def lowerChar (c : Char) : Char :=
  if 'A' ≤ c && c ≤ 'Z' then Char.ofNat (c.toNat + 32) else c

/-- `String.prototype.trim`: strip `\s`-class characters from both ends. -/
def trimChars (cs : List Char) : List Char :=
  ((cs.dropWhile isJsWs).reverse.dropWhile isJsWs).reverse

/-! ### Numeric parsing -/

/-- Value of a digit string (most significant first). -/
def natOfDigits (cs : List Char) : Nat :=
  cs.foldl (fun acc c => 10 * acc + (c.toNat - 48)) 0

/-- `parseFloat` on a string that matches the amount/budget pattern
`^(0|[1-9]\d*)(\.\d{1,2})?$` (integer part, optional 1-2 fraction digits);
exact in `ℚ`. -/
def parseAmount (cs : List Char) : ℚ :=
  let ip := cs.takeWhile (fun c => c ≠ '.')
  let rest := cs.dropWhile (fun c => c ≠ '.')
  let fr := rest.drop 1
  mkRat (natOfDigits ip * 10 ^ fr.length + natOfDigits fr) (10 ^ fr.length)

/-- The bound `999999.99` of `validateAmount`, as an exact rational. -/
def amountLimit : ℚ := mkRat 99999999 100

/-- The integer-part alternative `(0|[1-9]\d*)` of the amount pattern. -/
def intShape (cs : List Char) : Bool :=
  match cs with
  | [] => false
  | ['0'] => true
  | c :: rest => ('1' ≤ c && c ≤ '9') && rest.all isDigit

/-- `PATTERNS.amount = /^(0|[1-9]\d*)(\.\d{1,2})?$/` as a predicate. -/
def amountShape (cs : List Char) : Bool :=
  let ip := cs.takeWhile (fun c => c ≠ '.')
  let rest := cs.dropWhile (fun c => c ≠ '.')
  match rest with
  | [] => intShape ip
  | _ :: fr => intShape ip && fr.all isDigit && (fr.length = 1 || fr.length = 2)

/-! ### Field validators (`validators.js`) -/

/-- The `{ valid, error }` result object of every field validator. -/
structure VResult where
  valid : Bool
  error : Option String
deriving Repr, DecidableEq

/-- `validateAmount` from `validators.js`: required, must match
`PATTERNS.amount` after trimming, parsed value checked against 0 and
999999.99. -/
def validateAmount (s : String) : VResult :=
  let cs := s.data
  if cs.isEmpty || (trimChars cs).isEmpty then
    ⟨false, some "Amount is required"⟩
  else
    let t := trimChars cs
    if !amountShape t then
      ⟨false, some "Invalid amount format. Use numbers with up to 2 decimal places (e.g., 12.50)"⟩
    else if parseAmount t < 0 then
      ⟨false, some "Amount cannot be negative"⟩
    else if parseAmount t > amountLimit then
      ⟨false, some "Amount cannot exceed 999,999.99"⟩
    else
      ⟨true, none⟩

/-- `/\s{2,}/.test` : two consecutive whitespace characters somewhere. -/
def hasDoubleWs : List Char → Bool
  | a :: b :: rest => (isJsWs a && isJsWs b) || hasDoubleWs (b :: rest)
  | _ => false

/-- First match of `PATTERNS.duplicateWord = /\b(\w+)\s+\1\b/gi`, returning
the matched text.  A match is a maximal `\w`-run, a nonempty run of
whitespace, and a second maximal `\w`-run equal to the first up to ASCII
case (the `i` flag makes the back-reference case-insensitive); the `\s+`
after the group forces the first run to be maximal and the trailing `\b`
forces the second one to be. -/
def dupWordAt (cs : List Char) : Option (List Char) :=
  let w := cs.takeWhile isWordChar
  let rest1 := cs.dropWhile isWordChar
  let g := rest1.takeWhile isJsWs
  let rest2 := rest1.dropWhile isJsWs
  let w2 := rest2.takeWhile isWordChar
  if !g.isEmpty && !w2.isEmpty && w.map lowerChar == w2.map lowerChar then
    some (w ++ g ++ w2)
  else
    none

/-- Scan left to right; the flag records whether the previous character was
a `\w` character (in which case the current position is inside a word run
and cannot start a match). -/
def dupScan : Bool → List Char → Option (List Char)
  | _, [] => none
  | prevWord, c :: rest =>
    if !prevWord && isWordChar c then
      match dupWordAt (c :: rest) with
      | some m => some m
      | none => dupScan true rest
    else
      dupScan (isWordChar c) rest

def findDupWord (cs : List Char) : Option (List Char) :=
  dupScan false cs

/-- `PATTERNS.description = /^\S(?:.*\S)?$/` : first and last characters are
non-whitespace and (because `.` matches no line terminator) the characters
between them contain no line terminator. -/
def descPattern (cs : List Char) : Bool :=
  match cs with
  | [] => false
  | c :: rest =>
    match rest.reverse with
    | [] => !isJsWs c
    | lastc :: midRev =>
      !isJsWs c && !isJsWs lastc && midRev.all (fun x => !isLineTerm x)

/-- `validateDescription` from `validators.js`. -/
def validateDescription (s : String) : VResult :=
  let cs := s.data
  if cs.isEmpty || (trimChars cs).isEmpty then
    ⟨false, some "Description is required"⟩
  else if cs ≠ trimChars cs then
    ⟨false, some "Description cannot have leading or trailing spaces"⟩
  else if hasDoubleWs cs then
    ⟨false, some "Description cannot have consecutive spaces"⟩
  else if cs.length < 2 then
    ⟨false, some "Description must be at least 2 characters"⟩
  else if cs.length > 200 then
    ⟨false, some "Description cannot exceed 200 characters"⟩
  else
    match findDupWord cs with
    | some m =>
      ⟨false, some ("Duplicate word detected: \x22" ++ String.mk m ++ "\x22. Please rephrase.")⟩
    | none =>
      if !descPattern cs then
        ⟨false, some "Invalid description format"⟩
      else
        ⟨true, none⟩

/-- `PATTERNS.date = /^\d{4}-(0[1-9]|1[0-2])-(0[1-9]|[12]\d|3[01])$/`. -/
def datePattern (cs : List Char) : Bool :=
  match cs with
  | [y1, y2, y3, y4, s1, m1, m2, s2, d1, d2] =>
    isDigit y1 && isDigit y2 && isDigit y3 && isDigit y4 &&
    s1 = '-' && s2 = '-' &&
    ((m1 = '0' && '1' ≤ m2 && m2 ≤ '9') || (m1 = '1' && '0' ≤ m2 && m2 ≤ '2')) &&
    ((d1 = '0' && '1' ≤ d2 && d2 ≤ '9') || ((d1 = '1' || d1 = '2') && isDigit d2) ||
      (d1 = '3' && (d2 = '0' || d2 = '1')))
  | _ => false

def dateYear (cs : List Char) : Nat := natOfDigits (cs.take 4)

def dateMonth (cs : List Char) : Nat := natOfDigits ((cs.drop 5).take 2)

def dateDay (cs : List Char) : Nat := natOfDigits (cs.drop 8)

def isLeapYear (y : Nat) : Bool := (y % 4 = 0 && y % 100 ≠ 0) || y % 400 = 0

def daysInMonth (y m : Nat) : Nat :=
  if m = 2 then (if isLeapYear y then 29 else 28)
  else if m = 4 || m = 6 || m = 9 || m = 11 then 30
  else 31

/-- The `new Date(year, month - 1, day)` round-trip check of `validateDate`:
the components survive exactly when the day exists in that month and the
year is at least 100 (`Date` maps years 0-99 to 1900-1999). -/
def dateRoundTrips (y m d : Nat) : Bool :=
  100 ≤ y && d ≤ daysInMonth y m

/-- `validateDate` from `validators.js`.  `currentYear` stands for
`new Date().getFullYear()` at the time of the call. -/
def validateDate (currentYear : Nat) (s : String) : VResult :=
  let cs := s.data
  if cs.isEmpty || (trimChars cs).isEmpty then
    ⟨false, some "Date is required"⟩
  else
    let t := trimChars cs
    if !datePattern t then
      ⟨false, some "Invalid date format. Use YYYY-MM-DD (e.g., 2025-09-15)"⟩
    else if !dateRoundTrips (dateYear t) (dateMonth t) (dateDay t) then
      ⟨false, some "Invalid date. Please enter a real date."⟩
    else if dateYear t < 2000 || dateYear t > currentYear + 10 then
      ⟨false, some ("Year must be between 2000 and " ++ toString (currentYear + 10))⟩
    else
      ⟨true, none⟩

/-- `PATTERNS.category = /^[A-Za-z]+(?:[ -][A-Za-z]+)*$/` : nonempty letter
segments joined by single spaces or hyphens.  The flag records whether the
current letter segment already has at least one letter; a separator is only
legal then, and resets the flag. -/
def catScan : Bool → List Char → Bool
  | inRun, [] => inRun
  | inRun, c :: rest =>
    if isAsciiLetter c then catScan true rest
    else if c = ' ' || c = '-' then inRun && catScan false rest
    else false

def catPattern (cs : List Char) : Bool := catScan false cs

/-- `validateCategory` from `validators.js`. -/
def validateCategory (s : String) : VResult :=
  let cs := s.data
  if cs.isEmpty || (trimChars cs).isEmpty then
    ⟨false, some "Category is required"⟩
  else
    let t := trimChars cs
    if !catPattern t then
      ⟨false, some "Category can only contain letters, spaces, and hyphens"⟩
    else if t.length < 2 then
      ⟨false, some "Category must be at least 2 characters"⟩
    else if t.length > 50 then
      ⟨false, some "Category cannot exceed 50 characters"⟩
    else
      ⟨true, none⟩

/-- `validateTransaction` from `validators.js`: run the four field
validators and collect the errors keyed by field, in the insertion order
description, amount, date, category. -/
def validateTransaction (currentYear : Nat)
    (description amount date category : String) : Bool × List (String × String) :=
  let errs :=
    (match (validateDescription description).error with
     | some e => [("description", e)] | none => []) ++
    (match (validateAmount amount).error with
     | some e => [("amount", e)] | none => []) ++
    (match (validateDate currentYear date).error with
     | some e => [("date", e)] | none => []) ++
    (match (validateCategory category).error with
     | some e => [("category", e)] | none => [])
  (errs.isEmpty, errs)

/-- A whitespace-separated duplicate word pair in the sense of the claim:
two identical whole words (case-insensitively equal; here even literally
equal) separated only by whitespace, delimited by whitespace or a string
edge.  This follows the words of the claim, to be compared with the
behaviour of `validateDescription`. -/
def HasDupWordPairSpec (s : String) : Prop :=
  ∃ pre w gap post : List Char,
    s.data = pre ++ w ++ gap ++ w ++ post ∧
    w ≠ [] ∧ (∀ c ∈ w, isJsWs c = false) ∧
    gap ≠ [] ∧ (∀ c ∈ gap, isJsWs c = true) ∧
    (pre = [] ∨ ∃ c, pre.getLast? = some c ∧ isJsWs c = true) ∧
    (post = [] ∨ ∃ c, post.head? = some c ∧ isJsWs c = true)

/-! ### Search module (`search.js`) -/

/-- HTML-escaping of one character, as performed by the
`div.textContent = text; div.innerHTML` trick of `escapeHTML`: the HTML
serializer escapes `&`, `<`, `>` and the non-breaking space inside text
nodes and leaves every other character alone. -/
def escapeChar (c : Char) : List Char :=
  if c = '&' then "&amp;".data
  else if c = '<' then "&lt;".data
  else if c = '>' then "&gt;".data
  else if c.toNat = 0xa0 then "&nbsp;".data
  else [c]

def escapeHTMLList : List Char → List Char
  | [] => []
  | c :: rest => escapeChar c ++ escapeHTMLList rest

/-- `escapeHTML` from `search.js` (empty input short-circuits to `""`,
which coincides with escaping the empty string). -/
def escapeHTML (s : String) : String := String.mk (escapeHTMLList s.data)

/-- A decomposition of the escaped text into alternating pieces, as
produced by `String.prototype.replace` with a global regex: the matched
pieces (flag `true`) are the non-overlapping matches found left to right
and the unmatched pieces are the text in between.  Quantifying over all
decompositions covers every possible regex. -/
def joinPieces (ps : List (List Char × Bool)) : List Char :=
  ps.foldr (fun p acc => p.1 ++ acc) []

/-- `escaped.replace(regex, m => "<mark>" + m + "</mark>")`: emit unmatched
pieces verbatim and wrap matched pieces in the emphasis marker. -/
def renderPieces : List (List Char × Bool) → List Char
  | [] => []
  | (p, b) :: rest =>
    (if b then "<mark>".data ++ p ++ "</mark>".data else p) ++ renderPieces rest

/-- `highlight` from `search.js`: with no matcher return the escaped text;
with a matcher, escape first and then wrap that matcher's matches on the
escaped string. -/
def highlight (text : String) : Option (List (List Char × Bool)) → String
  | none => escapeHTML text
  | some ps => String.mk (renderPieces ps)

/-- No character of the string is a raw `<` or `>`, and every `&` starts
one of the entities produced by the escaper. -/
def noUnescaped : List Char → Bool
  | [] => true
  | c :: rest =>
    if c = '<' ∨ c = '>' then false
    else if c = '&' then
      ("amp;".data.isPrefixOf rest || "lt;".data.isPrefixOf rest ||
       "gt;".data.isPrefixOf rest || "nbsp;".data.isPrefixOf rest) && noUnescaped rest
    else noUnescaped rest

/-- Remove every occurrence of the inserted markers `<mark>` and `</mark>`;
what remains is the text that originated from the input. -/
def stripMarkers : List Char → List Char
  | [] => []
  | c :: rest =>
    if "<mark>".data.isPrefixOf (c :: rest) then stripMarkers ((c :: rest).drop 6)
    else if "</mark>".data.isPrefixOf (c :: rest) then stripMarkers ((c :: rest).drop 7)
    else c :: stripMarkers rest
termination_by cs => cs.length
decreasing_by
  · simp only [List.length_drop, List.length_cons]; omega
  · simp only [List.length_drop, List.length_cons]; omega
  · simp [Nat.lt_succ_self]

/-! ### Safe-search compiler (`search.js: compileRegex`) -/

/-- The browser regex engine and wall clock, the two effects `compileRegex`
uses: `compile` returns the engine's error message for a syntactically
invalid pattern and `none` when the pattern compiles; `elapsed pat probe`
is the wall-clock time in milliseconds that `regex.test(probe)` takes. -/
structure EngineModel where
  compile : String → Option String
  elapsed : String → String → ℚ

/-- The fixed probe string `'a'.repeat(100)`. -/
def probeString : String := String.mk (List.replicate 100 'a')

/-- The `{ regex, error }` result of `compileRegex`; the accepted matcher
is represented by its (trimmed) pattern source. -/
structure CompileResult where
  regex : Option String
  error : Option String
deriving Repr, DecidableEq

/-- `compileRegex` from `search.js`: empty or whitespace-only input means
no filter; a syntax error from the engine is reported, not thrown; a
syntactically valid pattern is probed against `probeString` and rejected
when the probe takes more than 100 ms. -/
def compileRegex (eng : EngineModel) (input : String) : CompileResult :=
  if input.data.isEmpty || (trimChars input.data).isEmpty then
    ⟨none, none⟩
  else
    match eng.compile (String.mk (trimChars input.data)) with
    | some msg => ⟨none, some ("Invalid pattern: " ++ msg)⟩
    | none =>
      if eng.elapsed (String.mk (trimChars input.data)) probeString > 100 then
        ⟨none, some "Pattern is too complex and may cause performance issues"⟩
      else
        ⟨some (String.mk (trimChars input.data)), none⟩

/-- A concrete engine model agreeing with the browser engine on the two
patterns of the claim: `"("` is a syntax error (unterminated group) and
`"a"` compiles and is probed instantaneously. -/
def sampleEngine : EngineModel where
  compile p :=
    if p = "(" then some "Invalid regular expression: /(/gi: Unterminated group" else none
  elapsed _ _ := 0

/-! ### Data model, storage adapter (`storage.js`) and state container
(`state.js`).

The durable store (the `localStorage` blob under `sft:transactions`) is a
`List Transaction`; a failing `localStorage.setItem` is modelled by the
`ok : Bool` parameter of each save call: `saveTransactions` catches the
exception, logs it and returns `false`, leaving the blob unchanged —
exactly the behaviour of the source. -/

structure Transaction where
  id : String
  description : String
  amount : ℚ
  category : String
  date : String
  createdAt : String
  updatedAt : String
deriving Repr, DecidableEq

/-- The object handed to the add mutator (no id, no timestamps). -/
structure TxData where
  description : String
  amount : ℚ
  category : String
  date : String
deriving Repr, DecidableEq

/-- The `updates` object of the update mutator: a JS object whose present
keys overwrite the stored transaction field-by-field via spread.  An
`updatedAt` key would be overwritten afterwards in any case. -/
structure TxUpdates where
  id : Option String := none
  description : Option String := none
  amount : Option ℚ := none
  category : Option String := none
  date : Option String := none
  createdAt : Option String := none
  updatedAt : Option String := none
deriving Repr, DecidableEq

/-- `{...transactions[index], ...updates, updatedAt: new Date().toISOString()}`. -/
def mergeUpdates (t : Transaction) (u : TxUpdates) (now : String) : Transaction :=
  { id := u.id.getD t.id
    description := u.description.getD t.description
    amount := u.amount.getD t.amount
    category := u.category.getD t.category
    date := u.date.getD t.date
    createdAt := u.createdAt.getD t.createdAt
    updatedAt := now }

/-- `storage.saveTransactions`: `localStorage.setItem` either succeeds
(store replaced, `true`) or throws (caught: store unchanged, `false`). -/
def saveTransactions (ok : Bool) (ts store : List Transaction) :
    Bool × List Transaction :=
  if ok then (true, ts) else (false, store)

namespace Storage

/-- `storage.addTransaction`: load, append the new record (fresh id and
timestamps), save.  The boolean result of `saveTransactions` is discarded
by the source, so the new record is returned even when the durable write
failed. -/
def addTransaction (ok : Bool) (newId now : String) (td : TxData)
    (store : List Transaction) : Option Transaction × List Transaction :=
  let t : Transaction :=
    ⟨newId, td.description, td.amount, td.category, td.date, now, now⟩
  let r := saveTransactions ok (store ++ [t]) store
  (some t, r.2)

/-- Find the first transaction with the given id, replace it by the merge
of itself and `updates`, and return the merged record with the new list;
`none` when the id is absent (the source throws and catches
`Transaction not found`). -/
def updateInList (u : TxUpdates) (now id : String) :
    List Transaction → Option (Transaction × List Transaction)
  | [] => none
  | t :: ts =>
    if t.id = id then
      some (mergeUpdates t u now, mergeUpdates t u now :: ts)
    else
      match updateInList u now id ts with
      | some (t2, ts2) => some (t2, t :: ts2)
      | none => none

/-- `storage.updateTransaction`; the save result is again discarded. -/
def updateTransaction (ok : Bool) (id : String) (u : TxUpdates) (now : String)
    (store : List Transaction) : Option Transaction × List Transaction :=
  match updateInList u now id store with
  | none => (none, store)
  | some (t2, ts2) =>
    let r := saveTransactions ok ts2 store
    (some t2, r.2)

/-- `storage.importTransactions`: save the new list and return `true`
unconditionally — the boolean result of `saveTransactions` is discarded. -/
def importTransactions (ok : Bool) (ts store : List Transaction) :
    Bool × List Transaction :=
  let r := saveTransactions ok ts store
  (true, r.2)

end Storage

/-- The state container mirror plus the durable store it delegates to. -/
structure AppState where
  transactions : List Transaction
  store : List Transaction
deriving Repr, DecidableEq

namespace StateC

/-- `state.addTransaction`: delegate to storage; on a truthy result push
the new record onto the mirror. -/
def addTransaction (ok : Bool) (newId now : String) (td : TxData)
    (st : AppState) : Option Transaction × AppState :=
  match Storage.addTransaction ok newId now td st.store with
  | (some t, store2) => (some t, ⟨st.transactions ++ [t], store2⟩)
  | (none, store2) => (none, ⟨st.transactions, store2⟩)

/-- Replace the first mirror entry whose id matches (the source uses
`findIndex`; index `-1` leaves the mirror unchanged). -/
def replaceById (id : String) (t2 : Transaction) :
    List Transaction → List Transaction
  | [] => []
  | t :: ts => if t.id = id then t2 :: ts else t :: replaceById id t2 ts

/-- `state.updateTransaction`. -/
def updateTransaction (ok : Bool) (id : String) (u : TxUpdates) (now : String)
    (st : AppState) : Option Transaction × AppState :=
  match Storage.updateTransaction ok id u now st.store with
  | (some t2, store2) => (some t2, ⟨replaceById id t2 st.transactions, store2⟩)
  | (none, store2) => (none, ⟨st.transactions, store2⟩)

/-- `state.importTransactions`: replace the mirror when storage reports
success (which it always does). -/
def importTransactions (ok : Bool) (ts : List Transaction) (st : AppState) :
    Bool × AppState :=
  match Storage.importTransactions ok ts st.store with
  | (true, store2) => (true, ⟨ts, store2⟩)
  | (false, store2) => (false, ⟨st.transactions, store2⟩)

end StateC

/-! ### Import-batch validation (`validators.js: validateImportData`) -/

/-- One element of the import array that is an object; each field is
`some s` when the key is present (with `s` the `String(...)` coercion of
its value) and `none` when absent.  `id`/`createdAt`/`updatedAt` model the
truthiness test of `item.id || generateId()`: `none` covers both an absent
and a falsy value. -/
structure RawItem where
  description : Option String := none
  amount : Option String := none
  category : Option String := none
  date : Option String := none
  id : Option String := none
  createdAt : Option String := none
  updatedAt : Option String := none
deriving Repr, DecidableEq

/-- `Array.prototype.join(sep)`. -/
def joinSep (sep : String) : List String → String
  | [] => ""
  | [x] => x
  | x :: xs => x ++ sep ++ joinSep sep xs

/-- The per-item validation of the `validateImportData` loop: not an
object, missing required fields, or whole-transaction validation failure;
`none` when the item is valid.  `i` is the zero-based index. -/
def itemError (currentYear i : Nat) : Option RawItem → Option String
  | none => some ("Item " ++ toString (i + 1) ++ ": Not a valid object")
  | some r =>
    let missing :=
      (if r.description.isNone then ["description"] else []) ++
      (if r.amount.isNone then ["amount"] else []) ++
      (if r.category.isNone then ["category"] else []) ++
      (if r.date.isNone then ["date"] else [])
    if !missing.isEmpty then
      some ("Item " ++ toString (i + 1) ++ ": Missing fields: " ++ joinSep ", " missing)
    else
      let v := validateTransaction currentYear (r.description.getD "") (r.amount.getD "")
        (r.date.getD "") (r.category.getD "")
      if v.1 then none
      else
        some ("Item " ++ toString (i + 1) ++ ": " ++
          joinSep "; " (v.2.map (fun pe => pe.1 ++ ": " ++ pe.2)))

/-- `item.id || generateId()`: keep a present truthy value, else the
generated default. -/
def jsOrDefault (o : Option String) (d : String) : String :=
  match o with
  | some s => if s.isEmpty then d else s
  | none => d

/-- The normalized record pushed for a valid item: trimmed strings, parsed
amount, generated id/timestamps when absent, preserved when present. -/
def normalizeItem (genId now : String) (r : RawItem) : Transaction where
  id := jsOrDefault r.id genId
  description := String.mk (trimChars (r.description.getD "").data)
  amount := parseAmount (trimChars (r.amount.getD "").data)
  category := String.mk (trimChars (r.category.getD "").data)
  date := String.mk (trimChars (r.date.getD "").data)
  createdAt := jsOrDefault r.createdAt now
  updatedAt := jsOrDefault r.updatedAt now

/-- The `errors` list accumulated by the loop, one entry per failing item. -/
def collectErrors (currentYear : Nat) (items : List (Option RawItem)) : List String :=
  items.enum.filterMap (fun p => itemError currentYear p.1 p.2)

/-- The `validatedData` list accumulated by the loop, one normalized record
per valid item (`gen i` is the id generated for item `i`). -/
def collectData (currentYear : Nat) (gen : Nat → String) (now : String)
    (items : List (Option RawItem)) : List Transaction :=
  items.enum.filterMap (fun p =>
    match p.2 with
    | none => none
    | some r =>
      if (itemError currentYear p.1 (some r)).isNone then
        some (normalizeItem (gen p.1) now r)
      else none)

/-- The batch error message: up to 5 item summaries joined by newlines,
plus a count of the remaining failures. -/
def mkBatchError (errs : List String) : String :=
  "Validation errors:\n" ++ joinSep "\n" (errs.take 5) ++
    (if 5 < errs.length then "\n... and " ++ toString (errs.length - 5) ++ " more" else "")

/-- The `{ valid, error, data }` result of `validateImportData`. -/
structure ImportResult where
  valid : Bool
  error : Option String
  data : Option (List Transaction)
deriving Repr, DecidableEq

/-- `validateImportData` from `validators.js` (the `Array.isArray` guard is
discharged by typing the input as a list). -/
def validateImportData (currentYear : Nat) (gen : Nat → String) (now : String)
    (items : List (Option RawItem)) : ImportResult :=
  if items.isEmpty then
    ⟨false, some "Data array is empty", none⟩
  else
    let errs := collectErrors currentYear items
    if errs.isEmpty then
      ⟨true, none, some (collectData currentYear gen now items)⟩
    else
      ⟨false, some (mkBatchError errs), none⟩

/-! ### Derived statistics: `getTopCategory` (`state.js`) -/

/-- `categoryTotals[t.category] = (categoryTotals[t.category] || 0) + t.amount`
on a JS object whose string keys iterate in insertion order (category
names never look like array indices, which would iterate first): an
association list where an existing key keeps its place and a new key is
appended. -/
def upsertTotals : List (String × ℚ) → String → ℚ → List (String × ℚ)
  | [], c, a => [(c, a)]
  | (k, s) :: rest, c, a =>
    if k = c then (k, s + a) :: rest else (k, s) :: upsertTotals rest c a

/-- The `categoryTotals` object after the `forEach` accumulation. -/
def accTotals (ts : List Transaction) : List (String × ℚ) :=
  ts.foldl (fun acc t => upsertTotals acc t.category t.amount) []

/-- The selection loop of `getTopCategory`: start from
`topCategory = null, topAmount = 0` and replace on a strictly greater
amount. -/
def pickTopAux : Option String × ℚ → List (String × ℚ) → Option String × ℚ
  | acc, [] => acc
  | acc, p :: rest => pickTopAux (if acc.2 < p.2 then (some p.1, p.2) else acc) rest

/-- `getTopCategory` from `state.js`; the result pair is the
`{ category, amount }` object (`category` may be `null`). -/
def getTopCategory (ts : List Transaction) : Option (Option String × ℚ) :=
  if ts.isEmpty then none
  else some (pickTopAux (none, 0) (accTotals ts))

/-- First-encounter deduplication: the key iteration order of a JS object
with string keys. -/
def dedupFirst (cs : List String) : List String :=
  cs.foldl (fun acc c => if c ∈ acc then acc else acc ++ [c]) []

/-- Sum of the amounts a given category contributes to an association
list (0 when absent; the unique entry value when the keys are nodup). -/
def lookupSum (l : List (String × ℚ)) (c : String) : ℚ :=
  ((l.filter (fun p => p.1 = c)).map Prod.snd).sum

/-- The summed amount of category `c` over the transaction list. -/
def sumFor (c : String) (ts : List Transaction) : ℚ :=
  ((ts.filter (fun t => t.category = c)).map Transaction.amount).sum

/-! ### The filter-search-sort pipeline (`state.js: getFilteredTransactions`)

`setSearchQuery` compiles the search pattern with the `g` flag
(`'gi'`/`'g'`), so the stored `RegExp` object is stateful:
`regex.test(s)` starts matching at `regex.lastIndex`, sets `lastIndex`
to the match end on success and resets it to 0 on failure.
`getFilteredTransactions` never resets `lastIndex`.  A matcher is modelled
by its `find` function: the first match (start, end) in the string at or
after the given start position. -/

structure StRegex where
  find : List Char → Nat → Option (Nat × Nat)

/-- `regex.test(s)` on a `g`-flagged regex: returns whether a match was
found and the new `lastIndex`. -/
def regexTestG (r : StRegex) (s : List Char) (li : Nat) : Bool × Nat :=
  match r.find s li with
  | some pe => (true, pe.2)
  | none => (false, 0)

/-- The JS environment bits the pipeline needs: `String(amount)`, the
numeric value of `new Date(dateString)`, and `localeCompare`. -/
structure JsEnv where
  numStr : ℚ → String
  dateVal : String → ℚ
  descCmp : String → String → ℚ

/-- The search predicate of `getFilteredTransactions`, with JS
short-circuit evaluation order threading `lastIndex` through the four
`test` calls: description, category, `String(amount)`, date. -/
def testTx (r : StRegex) (numStr : ℚ → String) (t : Transaction) (li : Nat) :
    Bool × Nat :=
  let r1 := regexTestG r t.description.data li
  if r1.1 then (true, r1.2) else
  let r2 := regexTestG r t.category.data r1.2
  if r2.1 then (true, r2.2) else
  let r3 := regexTestG r (numStr t.amount).data r2.2
  if r3.1 then (true, r3.2) else
  regexTestG r t.date.data r3.2

/-- `filtered.filter(t => ...)` with the stateful matcher threaded left to
right through the list. -/
def filterSearchSt (r : StRegex) (numStr : ℚ → String) :
    List Transaction → Nat → List Transaction × Nat
  | [], li => ([], li)
  | t :: ts, li =>
    let b := testTx r numStr t li
    let rest := filterSearchSt r numStr ts b.2
    (if b.1 then t :: rest.1 else rest.1, rest.2)

/-- `field` of `sortKey.split('-')`. -/
def sortField (sortBy : String) : String := (sortBy.splitOn "-").headD ""

/-- `direction` of `sortKey.split('-')` (empty when absent). -/
def sortDir (sortBy : String) : String := (sortBy.splitOn "-").getD 1 ""

/-- The `switch (field)` comparison of `sortTransactions`: date values,
locale-aware description comparison, numeric amount difference, else 0. -/
def cmpTx (env : JsEnv) (field : String) (a b : Transaction) : ℚ :=
  if field = "date" then env.dateVal a.date - env.dateVal b.date
  else if field = "description" then env.descCmp a.description b.description
  else if field = "amount" then a.amount - b.amount
  else 0

/-- `direction === 'asc' ? 1 : -1`. -/
def sortMult (sortBy : String) : ℚ := if sortDir sortBy = "asc" then 1 else -1

/-- The ordering a stable sort with comparator
`(a, b) => comparison * multiplier` realises: `a` may stay before `b`
exactly when the scaled comparison is not positive. -/
def sortRel (env : JsEnv) (sortBy : String) (a b : Transaction) : Prop :=
  cmpTx env (sortField sortBy) a b * sortMult sortBy ≤ 0

instance sortRelDec (env : JsEnv) (sortBy : String) : DecidableRel (sortRel env sortBy) :=
  fun a b => inferInstanceAs
    (Decidable (cmpTx env (sortField sortBy) a b * sortMult sortBy ≤ 0))

/-- `sortTransactions` from `state.js`, modelled by a stable sort
(`Array.prototype.sort` is specified stable) with the source comparator. -/
def sortTransactions (env : JsEnv) (sortBy : String) (ts : List Transaction) :
    List Transaction :=
  List.insertionSort (sortRel env sortBy) ts

/-- `getFilteredTransactions` from `state.js`: category filter (exact,
active when the filter string is nonempty), then the stateful search
filter, then the sort.  The threaded `lastIndex` of the shared `RegExp`
object is part of the result. -/
def getFilteredTransactions (env : JsEnv) (catFilter : String)
    (rx : Option StRegex) (sortBy : String) (ts : List Transaction) (li : Nat) :
    List Transaction × Nat :=
  let l1 := if catFilter.isEmpty then ts else ts.filter (fun t => t.category == catFilter)
  match rx with
  | none => (sortTransactions env sortBy l1, li)
  | some r =>
    let l2 := filterSearchSt r env.numStr l1 li
    (sortTransactions env sortBy l2.1, l2.2)

/-- The same pipeline with a stateless search predicate (the matcher's
`lastIndex` reset before every test), for the amended claim. -/
def getFilteredTransactionsPure (env : JsEnv) (catFilter : String)
    (pred : Option (Transaction → Bool)) (sortBy : String)
    (ts : List Transaction) : List Transaction :=
  let l1 := if catFilter.isEmpty then ts else ts.filter (fun t => t.category == catFilter)
  let l2 := match pred with | none => l1 | some p => l1.filter p
  sortTransactions env sortBy l2

/-- Literal-substring matcher: the model of the compiled regex `/a/gi`
for the one-character pattern it is instantiated with below. -/
def findLitAux (pat : List Char) : List Char → Nat → Option (Nat × Nat)
  | rest, j =>
    if pat.isPrefixOf rest then some (j, j + pat.length)
    else
      match rest with
      | [] => none
      | _ :: tl => findLitAux pat tl (j + 1)

def litRegex (pat : List Char) : StRegex where
  find s i := findLitAux pat (s.drop i) i

/-- A concrete environment for the counterexample (its values agree with
the JS renderings on the data used there). -/
def envSample : JsEnv where
  numStr q := if q = 5 then "5" else ""
  dateVal _ := 0
  descCmp _ _ := 0

/-! ### Theorems -/

example : (validateAmount "12.50").valid = true := by decide

example : (validateAmount "01").valid = false := by decide

example : (validateAmount ".50").valid = false := by decide

example : (validateAmount "12.999").valid = false := by decide

example : (validateAmount "-5").valid = false := by decide

example : (validateAmount " 12.50").valid = true := by decide

example : (validateAmount "1000000").valid = false := by decide

example : (validateAmount "999999.99").valid = true := by decide

example : (validateAmount "0").valid = true := by decide

example : (validateDescription "the the cat").valid = false := by decide

example : (validateDescription "Lunch at cafe").valid = true := by decide

example : (validateDescription " leading").valid = false := by decide

example : (validateDescription "a").valid = false := by decide

example : (validateDescription "very VERY good").valid = false := by decide

example : (validateDescription "él él").valid = true := by decide

example : (validateDate 2026 "2025-09-15").valid = true := by decide

example : (validateDate 2026 "2025-02-30").valid = false := by decide

example : (validateDate 2026 "25-01-01").valid = false := by decide

example : (validateDate 2026 "1999-01-01").valid = false := by decide

example : (validateDate 2026 "2024-02-29").valid = true := by decide

example : (validateDate 2026 "2025-02-29").valid = false := by decide

example : (validateCategory "Fast Food").valid = true := by decide

example : (validateCategory "Self-Care").valid = true := by decide

example : (validateCategory "Food123").valid = false := by decide

example : (validateCategory "under_score").valid = false := by decide

example : (validateCategory "a-").valid = false := by decide

example : (validateCategory " Food ").valid = true := by decide

/-- `0 ≤ parseFloat` of any amount-shaped string: the pattern admits no
sign character. -/
theorem parseAmount_nonneg (cs : List Char) : 0 ≤ parseAmount cs := by
  unfold parseAmount
  rw [Rat.mkRat_eq_div]
  positivity

/-- C6 counterexample: the string "él él" consists of the word "él" twice,
separated by a single space, yet `validateDescription` accepts it: the
back-reference pattern `\b(\w+)\s+\1\b` only sees ASCII `\w` words, and the
accented letter é is not a `\w` character. -/
theorem validateDescription_misses_unicode_dup :
    HasDupWordPairSpec "él él" ∧ (validateDescription "él él").valid = true := by
  constructor
  · exact ⟨[], ['é', 'l'], [' '], [], by decide, by decide, by decide, by decide,
      by decide, Or.inl rfl, Or.inl rfl⟩
  · decide

/-- C6 amended: for every string containing two consecutive identical
(up to ASCII case) maximal `\w` words — ASCII letters, digits, underscore —
separated only by whitespace, `validateDescription` returns `valid = false`. -/
theorem validateDescription_rejects_ascii_dup (s : String)
    (h : (findDupWord s.data).isSome = true) :
    (validateDescription s).valid = false := by
  obtain ⟨m, hm⟩ := Option.isSome_iff_exists.mp h
  simp only [validateDescription, hm]
  split_ifs <;> rfl

/-- C6 witness: "the the cat" contains the ASCII duplicate pair "the the"
and is indeed rejected. -/
theorem validateDescription_rejects_ascii_dup_witness :
    (validateDescription "the the cat").valid = false :=
  validateDescription_rejects_ascii_dup "the the cat" (by decide)

/-- C9 counterexample: `validateAmount` trims its argument before testing
the shape pattern, so the string " 12.50" is accepted although it does not
have the claimed shape (it starts with a space, not a digit). -/
theorem validateAmount_accepts_untrimmed :
    (validateAmount " 12.50").valid = true ∧ amountShape " 12.50".data = false := by
  constructor <;> decide

/-- C9 amended: `validateAmount` accepts exactly the strings whose
whitespace-trimmed form matches `^(0|[1-9]\d*)(\.\d{1,2})?$` and parses to
a value of at most 999999.99. -/
theorem validateAmount_valid_iff (s : String) :
    (validateAmount s).valid = true ↔
      (amountShape (trimChars s.data) = true ∧
        parseAmount (trimChars s.data) ≤ amountLimit) := by
  simp only [validateAmount]
  split
  · rename_i h
    simp only [Bool.or_eq_true, List.isEmpty_iff] at h
    constructor
    · intro hv; exact absurd hv (by simp)
    · rintro ⟨hs, -⟩
      rcases h with h | h
      · rw [h] at hs; exact absurd hs (by decide)
      · rw [h] at hs; exact absurd hs (by decide)
  · rename_i h
    split
    · rename_i hsh
      simp only [Bool.not_eq_true'] at hsh
      constructor
      · intro hv; exact absurd hv (by simp)
      · rintro ⟨hs, -⟩; rw [hsh] at hs; exact absurd hs (by decide)
    · rename_i hsh
      simp only [Bool.not_eq_true', Bool.not_eq_false] at hsh
      split
      · rename_i hneg
        exact absurd hneg (not_lt.mpr (parseAmount_nonneg _))
      · split
        · rename_i hgt
          constructor
          · intro hv; exact absurd hv (by simp)
          · rintro ⟨-, hle⟩; exact absurd hgt (not_lt.mpr hle)
        · rename_i hgt
          simp only [not_lt] at hgt
          exact ⟨fun _ => ⟨hsh, hgt⟩, fun _ => rfl⟩

/-- C9 witness: the amended characterisation evaluated at "12.50". -/
theorem validateAmount_valid_iff_witness :
    (validateAmount "12.50").valid = true :=
  (validateAmount_valid_iff "12.50").mpr (by constructor <;> decide)

/-- C10: the error branch "Amount cannot be negative" of `validateAmount`
is unreachable: the shape pattern admits no sign, so every string that
reaches the numeric checks parses to a non-negative value. -/
theorem validateAmount_never_negative_error (s : String) :
    ((validateAmount s).error == some "Amount cannot be negative") = false := by
  simp only [validateAmount]
  split
  · rfl
  · split
    · rfl
    · split
      · rename_i hneg
        exact absurd hneg (not_lt.mpr (parseAmount_nonneg _))
      · split <;> rfl

/-! ### Lemmas about the highlighter -/

/-! ### Lemmas about the highlighter -/

theorem prefix_self_append (p l : List Char) : (p.isPrefixOf (p ++ l)) = true := by
  induction p with
  | nil => simp [List.isPrefixOf]
  | cons c p ih => simp [List.isPrefixOf, ih]

theorem noUnescaped_cons_of {c : Char} (l : List Char)
    (h1 : c ≠ '<') (h2 : c ≠ '>') (h3 : c ≠ '&') :
    noUnescaped (c :: l) = noUnescaped l := by
  simp only [noUnescaped]
  rw [if_neg (by tauto), if_neg h3]

theorem noUnescaped_amp (l : List Char) :
    noUnescaped ("&amp;".data ++ l) = noUnescaped l := by
  show noUnescaped ('&' :: 'a' :: 'm' :: 'p' :: ';' :: l) = noUnescaped l
  simp [noUnescaped, List.isPrefixOf, prefix_self_append]

theorem noUnescaped_ltEnt (l : List Char) :
    noUnescaped ("&lt;".data ++ l) = noUnescaped l := by
  show noUnescaped ('&' :: 'l' :: 't' :: ';' :: l) = noUnescaped l
  simp [noUnescaped, List.isPrefixOf, prefix_self_append]

theorem noUnescaped_gtEnt (l : List Char) :
    noUnescaped ("&gt;".data ++ l) = noUnescaped l := by
  show noUnescaped ('&' :: 'g' :: 't' :: ';' :: l) = noUnescaped l
  simp [noUnescaped, List.isPrefixOf, prefix_self_append]

theorem noUnescaped_nbspEnt (l : List Char) :
    noUnescaped ("&nbsp;".data ++ l) = noUnescaped l := by
  show noUnescaped ('&' :: 'n' :: 'b' :: 's' :: 'p' :: ';' :: l) = noUnescaped l
  simp [noUnescaped, List.isPrefixOf, prefix_self_append]

theorem noUnescaped_escape (cs : List Char) :
    noUnescaped (escapeHTMLList cs) = true := by
  induction cs with
  | nil => rfl
  | cons c rest ih =>
    show noUnescaped (escapeChar c ++ escapeHTMLList rest) = true
    by_cases h1 : c = '&'
    · rw [show escapeChar c = "&amp;".data by rw [h1]; decide, noUnescaped_amp]; exact ih
    · by_cases h2 : c = '<'
      · rw [show escapeChar c = "&lt;".data by rw [h2]; decide, noUnescaped_ltEnt]; exact ih
      · by_cases h3 : c = '>'
        · rw [show escapeChar c = "&gt;".data by rw [h3]; decide, noUnescaped_gtEnt]; exact ih
        · by_cases h4 : c.toNat = 0xa0
          · rw [show escapeChar c = "&nbsp;".data by
                simp only [escapeChar]; rw [if_neg h1, if_neg h2, if_neg h3, if_pos h4],
              noUnescaped_nbspEnt]
            exact ih
          · rw [show escapeChar c = [c] by
                simp only [escapeChar]; rw [if_neg h1, if_neg h2, if_neg h3, if_neg h4]]
            show noUnescaped (c :: escapeHTMLList rest) = true
            rw [noUnescaped_cons_of _ h2 h3 h1]
            exact ih

theorem lt_not_mem_escapeChar {c : Char} : '<' ∉ escapeChar c := by
  simp only [escapeChar]
  split_ifs with h1 h2 h3 h4
  · decide
  · decide
  · decide
  · decide
  · simp only [List.mem_singleton]
    exact fun h => h2 h.symm

theorem lt_not_mem_escape (cs : List Char) : '<' ∉ escapeHTMLList cs := by
  induction cs with
  | nil => simp [escapeHTMLList]
  | cons c rest ih =>
    show '<' ∉ escapeChar c ++ escapeHTMLList rest
    rw [List.mem_append]
    rintro (h | h)
    · exact lt_not_mem_escapeChar h
    · exact ih h

theorem stripMarkers_append_no_lt (p l : List Char) (hp : '<' ∉ p) :
    stripMarkers (p ++ l) = p ++ stripMarkers l := by
  induction p with
  | nil => rfl
  | cons c p ih =>
    have hc : c ≠ '<' := fun h => hp (h ▸ List.mem_cons_self c p)
    have hp2 : '<' ∉ p := fun h => hp (List.mem_cons_of_mem c h)
    show stripMarkers (c :: (p ++ l)) = c :: (p ++ stripMarkers l)
    rw [stripMarkers]
    have hm1 : ("<mark>".data.isPrefixOf (c :: (p ++ l))) = false := by
      show (('<' == c) && _) = false
      rw [beq_eq_false_iff_ne.mpr (Ne.symm hc)]
      rfl
    have hm2 : ("</mark>".data.isPrefixOf (c :: (p ++ l))) = false := by
      show (('<' == c) && _) = false
      rw [beq_eq_false_iff_ne.mpr (Ne.symm hc)]
      rfl
    rw [if_neg (by rw [hm1]; exact Bool.false_ne_true),
      if_neg (by rw [hm2]; exact Bool.false_ne_true), ih hp2]

theorem stripMarkers_mark (l : List Char) :
    stripMarkers ("<mark>".data ++ l) = stripMarkers l := by
  show stripMarkers ('<' :: 'm' :: 'a' :: 'r' :: 'k' :: '>' :: l) = stripMarkers l
  rw [stripMarkers]
  rw [if_pos (show ("<mark>".data.isPrefixOf ('<' :: 'm' :: 'a' :: 'r' :: 'k' :: '>' :: l))
    = true by simp [List.isPrefixOf])]
  rfl

theorem stripMarkers_endmark (l : List Char) :
    stripMarkers ("</mark>".data ++ l) = stripMarkers l := by
  show stripMarkers ('<' :: '/' :: 'm' :: 'a' :: 'r' :: 'k' :: '>' :: l) = stripMarkers l
  rw [stripMarkers]
  rw [if_neg (show ¬("<mark>".data.isPrefixOf ('<' :: '/' :: 'm' :: 'a' :: 'r' :: 'k' :: '>' :: l))
      = true by simp [List.isPrefixOf])]
  rw [if_pos (show ("</mark>".data.isPrefixOf ('<' :: '/' :: 'm' :: 'a' :: 'r' :: 'k' :: '>' :: l))
    = true by simp [List.isPrefixOf])]
  rfl

theorem mem_joinPieces {c : Char} {ps : List (List Char × Bool)} {p : List Char × Bool}
    (hp : p ∈ ps) (hc : c ∈ p.1) : c ∈ joinPieces ps := by
  induction ps with
  | nil => cases hp
  | cons q rest ih =>
    show c ∈ q.1 ++ joinPieces rest
    rw [List.mem_append]
    rcases List.mem_cons.mp hp with h | h
    · exact Or.inl (h ▸ hc)
    · exact Or.inr (ih h)

theorem stripMarkers_render (ps : List (List Char × Bool))
    (h : ∀ p ∈ ps, '<' ∉ p.1) :
    stripMarkers (renderPieces ps) = joinPieces ps := by
  induction ps with
  | nil => rw [show renderPieces [] = [] from rfl, stripMarkers]; rfl
  | cons p rest ih =>
    have hp : '<' ∉ p.1 := h p (List.mem_cons_self p rest)
    have hrest : ∀ q ∈ rest, '<' ∉ q.1 := fun q hq => h q (List.mem_cons_of_mem p hq)
    obtain ⟨pc, b⟩ := p
    cases b with
    | false =>
      show stripMarkers (pc ++ renderPieces rest) = pc ++ joinPieces rest
      rw [stripMarkers_append_no_lt pc _ hp, ih hrest]
    | true =>
      show stripMarkers (("<mark>".data ++ pc ++ "</mark>".data) ++ renderPieces rest) =
        pc ++ joinPieces rest
      rw [List.append_assoc, List.append_assoc, stripMarkers_mark,
        stripMarkers_append_no_lt pc _ hp, stripMarkers_endmark, ih hrest]

/-- C4: for every input text and every matcher (any decomposition of the
escaped text into matched and unmatched runs, which covers every regex,
including the no-matcher case and a matcher matching the whole string),
`highlight` escapes the input before inserting any emphasis marker: with no
matcher it returns the escaped text unchanged; the escaped text carries no
un-escaped `<`, `>` or `&`; and removing the inserted `<mark>`/`</mark>`
markers from the output recovers exactly the escaped input, so every
special character originating from the input text stays escaped. -/
theorem highlight_escapes_input (text : String) (ps : List (List Char × Bool))
    (hps : joinPieces ps = escapeHTMLList text.data) :
    highlight text none = escapeHTML text ∧
    noUnescaped (escapeHTML text).data = true ∧
    stripMarkers (highlight text (some ps)).data = (escapeHTML text).data := by
  refine ⟨rfl, noUnescaped_escape _, ?_⟩
  show stripMarkers (renderPieces ps) = escapeHTMLList text.data
  rw [stripMarkers_render ps ?_, hps]
  intro p hp hlt
  exact lt_not_mem_escape text.data (hps ▸ mem_joinPieces hp hlt)

/-- C4 witness: text `"a<b&"` escapes to `"a&lt;b&amp;"`; a matcher matching
the single `b` decomposes it into `"a&lt;"`, `"b"`, `"&amp;"`. -/
theorem highlight_escapes_input_witness :
    highlight "a<b&" none = escapeHTML "a<b&" ∧
    noUnescaped (escapeHTML "a<b&").data = true ∧
    stripMarkers (highlight "a<b&"
      (some [("a&lt;".data, false), ("b".data, true), ("&amp;".data, false)])).data =
      (escapeHTML "a<b&").data :=
  highlight_escapes_input "a<b&"
    [("a&lt;".data, false), ("b".data, true), ("&amp;".data, false)] (by decide)

/-- C5: the contract of `compileRegex`, with the browser engine and wall
clock abstracted as `EngineModel`: empty or whitespace-only input succeeds
with an absent matcher and no error; a syntactically invalid pattern is
rejected with the engine error text (no crash); a valid pattern whose probe
run over the 100-character probe string takes at most the 100 ms threshold
is accepted; a valid pattern exceeding the threshold is rejected as too
complex. -/
theorem compileRegex_contract (eng : EngineModel) (input : String) :
    ((trimChars input.data).isEmpty = true →
      compileRegex eng input = ⟨none, none⟩) ∧
    (∀ msg, (trimChars input.data).isEmpty = false →
      eng.compile (String.mk (trimChars input.data)) = some msg →
      compileRegex eng input = ⟨none, some ("Invalid pattern: " ++ msg)⟩) ∧
    ((trimChars input.data).isEmpty = false →
      eng.compile (String.mk (trimChars input.data)) = none →
      eng.elapsed (String.mk (trimChars input.data)) probeString ≤ 100 →
      compileRegex eng input = ⟨some (String.mk (trimChars input.data)), none⟩) ∧
    ((trimChars input.data).isEmpty = false →
      eng.compile (String.mk (trimChars input.data)) = none →
      eng.elapsed (String.mk (trimChars input.data)) probeString > 100 →
      compileRegex eng input = ⟨none, some "Pattern is too complex and may cause performance issues"⟩) := by
  have hne : (trimChars input.data).isEmpty = false → (input.data.isEmpty ||
      (trimChars input.data).isEmpty) = false := by
    intro h
    have : input.data.isEmpty = false := by
      by_contra hc
      rw [Bool.not_eq_false, List.isEmpty_iff] at hc
      rw [hc] at h
      exact absurd h (by decide)
    rw [this, h]
    rfl
  refine ⟨?_, ?_, ?_, ?_⟩
  · intro h
    simp only [compileRegex]
    rw [if_pos (by rw [h, Bool.or_true])]
  · intro msg h hc
    simp only [compileRegex]
    rw [if_neg (by rw [hne h]; exact Bool.false_ne_true), hc]
  · intro h hc hel
    simp only [compileRegex]
    rw [if_neg (by rw [hne h]; exact Bool.false_ne_true), hc]
    rw [if_neg (not_lt.mpr hel)]
  · intro h hc hel
    simp only [compileRegex]
    rw [if_neg (by rw [hne h]; exact Bool.false_ne_true), hc]
    rw [if_pos hel]

/-- C5 witness: the three contract branches evaluated on the sample
engine: whitespace-only input, the pattern `"("`, and the pattern `"a"`. -/
theorem compileRegex_contract_witness :
    compileRegex sampleEngine "   " = ⟨none, none⟩ ∧
    compileRegex sampleEngine "(" =
      ⟨none, some ("Invalid pattern: " ++ "Invalid regular expression: /(/gi: Unterminated group")⟩ ∧
    compileRegex sampleEngine "a" = ⟨some (String.mk (trimChars "a".data)), none⟩ :=
  ⟨(compileRegex_contract sampleEngine "   ").1 (by decide),
   (compileRegex_contract sampleEngine "(").2.1 _ (by decide) (by decide),
   (compileRegex_contract sampleEngine "a").2.2.1 (by decide) (by decide) (by norm_num [sampleEngine])⟩

/-- C1 (code bug, evaluated at the failing input): adding a transaction
while the durable write fails (`localStorage.setItem` throws, so
`saveTransactions` returns `false`): the mutator still reports success
(returns the created record), pushes it onto the in-memory mirror, and the
mirror no longer equals the durable store — `storage.addTransaction`
discards the boolean result of `saveTransactions`. -/
theorem addTransaction_swallows_failed_save :
    (StateC.addTransaction false "txn1" "2025-01-01T00:00:00.000Z"
      ⟨"Lunch", 5, "Food", "2025-01-01"⟩ ⟨[], []⟩).1.isSome = true ∧
    (StateC.addTransaction false "txn1" "2025-01-01T00:00:00.000Z"
      ⟨"Lunch", 5, "Food", "2025-01-01"⟩ ⟨[], []⟩).2.store = [] ∧
    (StateC.addTransaction false "txn1" "2025-01-01T00:00:00.000Z"
      ⟨"Lunch", 5, "Food", "2025-01-01"⟩ ⟨[], []⟩).2.transactions ≠
    (StateC.addTransaction false "txn1" "2025-01-01T00:00:00.000Z"
      ⟨"Lunch", 5, "Food", "2025-01-01"⟩ ⟨[], []⟩).2.store := by
  refine ⟨rfl, rfl, ?_⟩
  decide

theorem updateInList_id {u : TxUpdates} {now id : String} (h : u.id = none) :
    ∀ {store : List Transaction} {t2 : Transaction} {ts2 : List Transaction},
      Storage.updateInList u now id store = some (t2, ts2) → t2.id = id := by
  intro store
  induction store with
  | nil => intro t2 ts2 hu; cases hu
  | cons t ts ih =>
    intro t2 ts2 hu
    by_cases hid : t.id = id
    · rw [Storage.updateInList, if_pos hid] at hu
      injection hu with hu
      have h1 : t2 = mergeUpdates t u now := (congrArg Prod.fst hu).symm
      rw [h1]
      show u.id.getD t.id = id
      rw [h, Option.getD_none]
      exact hid
    · rw [Storage.updateInList, if_neg hid] at hu
      rcases hr : Storage.updateInList u now id ts with _ | ⟨t3, ts3⟩
      · rw [hr] at hu; cases hu
      · rw [hr] at hu
        injection hu with hu
        have h1 : t2 = t3 := (congrArg Prod.fst hu).symm
        exact h1 ▸ ih hr

theorem replaceById_map_id {id : String} {t2 : Transaction} (h2 : t2.id = id) :
    ∀ l : List Transaction,
      (StateC.replaceById id t2 l).map Transaction.id = l.map Transaction.id := by
  intro l
  induction l with
  | nil => rfl
  | cons t ts ih =>
    by_cases hid : t.id = id
    · show ((if t.id = id then t2 :: ts else _).map Transaction.id) = _
      rw [if_pos hid]
      show t2.id :: ts.map Transaction.id = t.id :: ts.map Transaction.id
      rw [h2, hid]
    · show ((if t.id = id then _ else t :: StateC.replaceById id t2 ts).map Transaction.id) = _
      rw [if_neg hid]
      show t.id :: (StateC.replaceById id t2 ts).map Transaction.id = _
      rw [ih]
      rfl

/-- C8 counterexample: an `updates` object carrying an `id` key overwrites
the stored id — `{...transactions[index], ...updates}` spreads `updates`
last.  Updating transaction "t1" with `updates.id = "t2"` yields a record
whose id is "t2", and the mirror id changes with it. -/
theorem updateTransaction_id_overwritten :
    ((StateC.updateTransaction true "t1" { id := some "t2" } "now"
      ⟨[⟨"t1", "Lunch", 5, "Food", "2025-01-01", "c", "u"⟩],
       [⟨"t1", "Lunch", 5, "Food", "2025-01-01", "c", "u"⟩]⟩).2.transactions.map
      Transaction.id = ["t2"]) ∧
    (["t2"] : List String) ≠ ["t1"] := by
  refine ⟨?_, by decide⟩
  decide

/-- C8 amended: for every `updates` object that does not itself carry an
`id` key, the update mutator preserves the transaction id: a returned
record carries the addressed id, and the mirror's id sequence is unchanged
(the merge only rewrites the other supplied fields and regenerates
`updatedAt`). -/
theorem updateTransaction_preserves_id (ok : Bool) (id : String) (u : TxUpdates)
    (now : String) (st : AppState) (h : u.id = none) :
    (∀ t2, (StateC.updateTransaction ok id u now st).1 = some t2 → t2.id = id) ∧
    ((StateC.updateTransaction ok id u now st).2.transactions.map Transaction.id =
      st.transactions.map Transaction.id) := by
  rcases hu : Storage.updateInList u now id st.store with _ | ⟨t2, ts2⟩
  · simp only [StateC.updateTransaction, Storage.updateTransaction, hu]
    exact ⟨fun t2 ht => (nomatch ht), trivial⟩
  · simp only [StateC.updateTransaction, Storage.updateTransaction, hu]
    refine ⟨fun t3 ht => ?_, ?_⟩
    · injection ht with ht
      exact ht ▸ updateInList_id h hu
    · exact replaceById_map_id (updateInList_id h hu) st.transactions

/-- C8 witness: updating the description of "t1" (no `id` key in the
updates) leaves the mirror's id sequence at `["t1"]`. -/
theorem updateTransaction_preserves_id_witness :
    (StateC.updateTransaction true "t1" { description := some "New" } "now"
      ⟨[⟨"t1", "Lunch", 5, "Food", "2025-01-01", "c", "u"⟩],
       [⟨"t1", "Lunch", 5, "Food", "2025-01-01", "c", "u"⟩]⟩).2.transactions.map
      Transaction.id =
    ([⟨"t1", "Lunch", 5, "Food", "2025-01-01", "c", "u"⟩] :
      List Transaction).map Transaction.id :=
  (updateTransaction_preserves_id true "t1" { description := some "New" } "now"
    ⟨[⟨"t1", "Lunch", 5, "Food", "2025-01-01", "c", "u"⟩],
     [⟨"t1", "Lunch", 5, "Food", "2025-01-01", "c", "u"⟩]⟩ rfl).2

/-- C3: import is all-or-nothing.  If any item of the batch fails (not an
object, missing fields, or failing whole-transaction validation), the
entire batch is rejected: no data is returned and the error lists at most
the first 5 item summaries plus a count of the remaining failures — so no
partial import occurs.  If validation returns data (every item valid),
importing it replaces the full transaction list in the mirror: the mirror
equals the imported batch and any old record not in the batch is gone. -/
theorem validateImportData_all_or_nothing (currentYear : Nat) (gen : Nat → String)
    (now : String) (items : List (Option RawItem)) (st : AppState) (ok : Bool) :
    ((∃ p ∈ items.enum, (itemError currentYear p.1 p.2).isSome = true) →
      (validateImportData currentYear gen now items).valid = false ∧
      (validateImportData currentYear gen now items).data = none ∧
      (validateImportData currentYear gen now items).error =
        some (mkBatchError (collectErrors currentYear items))) ∧
    (∀ vd, (validateImportData currentYear gen now items).data = some vd →
      (StateC.importTransactions ok vd st).2.transactions = vd ∧
      (∀ t, t ∉ vd → t ∉ (StateC.importTransactions ok vd st).2.transactions)) := by
  constructor
  · rintro ⟨p, hp, herr⟩
    obtain ⟨msg, hmsg⟩ := Option.isSome_iff_exists.mp herr
    have hmem : msg ∈ collectErrors currentYear items :=
      List.mem_filterMap.mpr ⟨p, hp, hmsg⟩
    have herrs : (collectErrors currentYear items).isEmpty = false := by
      cases h : collectErrors currentYear items with
      | nil => rw [h] at hmem; cases hmem
      | cons a l => rfl
    have hitems : items.isEmpty = false := by
      cases h : items with
      | nil => rw [h] at hp; cases hp
      | cons a l => rfl
    simp only [validateImportData]
    rw [if_neg (by rw [hitems]; exact Bool.false_ne_true),
      if_neg (by rw [herrs]; exact Bool.false_ne_true)]
    exact ⟨rfl, rfl, rfl⟩
  · intro vd hd
    have hmirror : (StateC.importTransactions ok vd st).2.transactions = vd := rfl
    exact ⟨hmirror, fun t ht => by rw [hmirror]; exact ht⟩

/-- C3 witness: a batch of 5 items where item 3 has the invalid amount
"-5" is rejected whole. -/
theorem validateImportData_all_or_nothing_witness :
    (validateImportData 2026 (fun i => toString i) "2025-01-01T00:00:00.000Z"
      [some { description := some "Lunch at cafe", amount := some "12.50",
              category := some "Food", date := some "2025-01-01" },
       some { description := some "Bus pass", amount := some "30",
              category := some "Transport", date := some "2025-01-02" },
       some { description := some "Bad record", amount := some "-5",
              category := some "Food", date := some "2025-01-03" },
       some { description := some "Chemistry textbook", amount := some "80",
              category := some "Books", date := some "2025-01-04" },
       some { description := some "Cinema", amount := some "9.99",
              category := some "Entertainment", date := some "2025-01-05" }]).data =
      none :=
  ((validateImportData_all_or_nothing 2026 (fun i => toString i) "2025-01-01T00:00:00.000Z"
      [some { description := some "Lunch at cafe", amount := some "12.50",
              category := some "Food", date := some "2025-01-01" },
       some { description := some "Bus pass", amount := some "30",
              category := some "Transport", date := some "2025-01-02" },
       some { description := some "Bad record", amount := some "-5",
              category := some "Food", date := some "2025-01-03" },
       some { description := some "Chemistry textbook", amount := some "80",
              category := some "Books", date := some "2025-01-04" },
       some { description := some "Cinema", amount := some "9.99",
              category := some "Entertainment", date := some "2025-01-05" }] ⟨[], []⟩
      true).1
    ⟨(2, some { description := some "Bad record", amount := some "-5",
                category := some "Food", date := some "2025-01-03" }),
      by decide, by decide⟩).2.1

theorem upsertTotals_map_fst (acc : List (String × ℚ)) (c : String) (a : ℚ) :
    (upsertTotals acc c a).map Prod.fst =
      if c ∈ acc.map Prod.fst then acc.map Prod.fst else acc.map Prod.fst ++ [c] := by
  induction acc with
  | nil => simp [upsertTotals]
  | cons q rest ih =>
    obtain ⟨k, s⟩ := q
    by_cases hk : k = c
    · simp only [upsertTotals, if_pos hk, List.map_cons]
      rw [if_pos (by simp [hk])]
    · simp only [upsertTotals, if_neg hk, List.map_cons, ih, List.mem_cons]
      by_cases hm : c ∈ rest.map Prod.fst
      · rw [if_pos hm, if_pos (Or.inr hm)]
      · rw [if_neg hm, if_neg (fun h => h.elim (fun h1 => hk h1.symm) hm),
          List.cons_append]

theorem accTotals_fold_map_fst (ts : List Transaction) :
    ∀ acc : List (String × ℚ),
      (ts.foldl (fun a t => upsertTotals a t.category t.amount) acc).map Prod.fst =
      (ts.map Transaction.category).foldl
        (fun a c => if c ∈ a then a else a ++ [c]) (acc.map Prod.fst) := by
  induction ts with
  | nil => intro acc; rfl
  | cons t ts ih =>
    intro acc
    show (ts.foldl _ (upsertTotals acc t.category t.amount)).map Prod.fst = _
    rw [ih (upsertTotals acc t.category t.amount), upsertTotals_map_fst]
    rfl

/-- The keys of the totals object are the categories in first-encounter
(iteration) order. -/
theorem accTotals_map_fst (ts : List Transaction) :
    (accTotals ts).map Prod.fst = dedupFirst (ts.map Transaction.category) :=
  accTotals_fold_map_fst ts []

theorem dedupFirst_fold_nodup (cs : List String) :
    ∀ acc : List String, acc.Nodup →
      (cs.foldl (fun a c => if c ∈ a then a else a ++ [c]) acc).Nodup := by
  induction cs with
  | nil => intro acc h; exact h
  | cons c cs ih =>
    intro acc h
    show (cs.foldl _ (if c ∈ acc then acc else acc ++ [c])).Nodup
    by_cases hm : c ∈ acc
    · rw [if_pos hm]; exact ih acc h
    · rw [if_neg hm]
      refine ih _ ?_
      rw [List.nodup_append]
      exact ⟨h, List.nodup_singleton c, by simpa using hm⟩

theorem accTotals_keys_nodup (ts : List Transaction) :
    ((accTotals ts).map Prod.fst).Nodup := by
  rw [accTotals_map_fst]
  exact dedupFirst_fold_nodup _ [] List.nodup_nil

theorem filter_cons_pos {α : Type} (p : α → Bool) (a : α) (l : List α)
    (h : p a = true) : List.filter p (a :: l) = a :: List.filter p l :=
  List.filter_cons_of_pos h

theorem filter_cons_neg {α : Type} (p : α → Bool) (a : α) (l : List α)
    (h : p a = false) : List.filter p (a :: l) = List.filter p l :=
  List.filter_cons_of_neg (by simp [h])

theorem lookupSum_cons (q : String × ℚ) (rest : List (String × ℚ)) (c2 : String) :
    lookupSum (q :: rest) c2 = (if q.1 = c2 then q.2 else 0) + lookupSum rest c2 := by
  by_cases h : q.1 = c2
  · simp only [lookupSum]
    rw [filter_cons_pos (fun p => decide (p.1 = c2)) q rest (decide_eq_true h), if_pos h]
    simp only [List.map_cons, List.sum_cons]
  · simp only [lookupSum]
    rw [filter_cons_neg (fun p => decide (p.1 = c2)) q rest (decide_eq_false h), if_neg h,
      zero_add]

theorem lookupSum_upsert (acc : List (String × ℚ)) (c c2 : String) (a : ℚ) :
    lookupSum (upsertTotals acc c a) c2 =
      lookupSum acc c2 + (if c = c2 then a else 0) := by
  induction acc with
  | nil =>
    rw [show upsertTotals [] c a = [(c, a)] from rfl, lookupSum_cons]
    by_cases h : c = c2
    · simp [h]
      ring
    · simp [h]
  | cons q rest ih =>
    obtain ⟨k, s⟩ := q
    by_cases hk : k = c
    · rw [show upsertTotals ((k, s) :: rest) c a = (k, s + a) :: rest by
          simp only [upsertTotals]; rw [if_pos hk],
        lookupSum_cons, lookupSum_cons]
      by_cases h2 : k = c2
      · have hc : c = c2 := hk.symm.trans h2
        simp [h2, hc]
        ring
      · have hc : ¬c = c2 := fun hcc => h2 (hk.trans hcc)
        simp [h2, hc]
    · rw [show upsertTotals ((k, s) :: rest) c a = (k, s) :: upsertTotals rest c a by
          simp only [upsertTotals]; rw [if_neg hk],
        lookupSum_cons, lookupSum_cons, ih]
      ring

theorem lookupSum_fold (ts : List Transaction) :
    ∀ (acc : List (String × ℚ)) (c : String),
      lookupSum (ts.foldl (fun a t => upsertTotals a t.category t.amount) acc) c =
        lookupSum acc c + sumFor c ts := by
  induction ts with
  | nil =>
    intro acc c
    show lookupSum acc c = lookupSum acc c + ([] : List ℚ).sum
    simp
  | cons t ts ih =>
    intro acc c
    show lookupSum (ts.foldl _ (upsertTotals acc t.category t.amount)) c = _
    rw [ih, lookupSum_upsert]
    by_cases ht : t.category = c
    · rw [show sumFor c (t :: ts) = t.amount + sumFor c ts by
          simp only [sumFor]
          rw [filter_cons_pos (fun t => decide (t.category = c)) t ts (decide_eq_true ht)]
          simp only [List.map_cons, List.sum_cons],
        if_pos ht]
      ring
    · rw [show sumFor c (t :: ts) = sumFor c ts by
          simp only [sumFor]
          rw [filter_cons_neg (fun t => decide (t.category = c)) t ts (decide_eq_false ht)],
        if_neg ht]
      ring

theorem lookupSum_not_mem {l : List (String × ℚ)} {c : String}
    (h : c ∉ l.map Prod.fst) : lookupSum l c = 0 := by
  induction l with
  | nil => rfl
  | cons q rest ih =>
    have hq : ¬q.1 = c := fun he => h (by simp [he])
    have hr : c ∉ rest.map Prod.fst := fun hm => h (by simp [hm])
    rw [lookupSum_cons, if_neg hq, ih hr, add_zero]

theorem lookupSum_of_mem {l : List (String × ℚ)} {p : String × ℚ}
    (hnd : (l.map Prod.fst).Nodup) (hp : p ∈ l) : lookupSum l p.1 = p.2 := by
  induction l with
  | nil => cases hp
  | cons q rest ih =>
    rw [List.map_cons, List.nodup_cons] at hnd
    rcases List.mem_cons.mp hp with h | h
    · subst h
      rw [lookupSum_cons, if_pos rfl, lookupSum_not_mem hnd.1, add_zero]
    · have hne : ¬q.1 = p.1 := fun he => hnd.1 (by
        rw [he]; exact List.mem_map_of_mem Prod.fst h)
      rw [lookupSum_cons, if_neg hne, ih hnd.2 h, zero_add]

/-- Every entry of the totals object carries exactly the summed amount of
its category over the transaction list. -/
theorem accTotals_sum (ts : List Transaction) {p : String × ℚ}
    (hp : p ∈ accTotals ts) : p.2 = sumFor p.1 ts := by
  have h1 : lookupSum (accTotals ts) p.1 = p.2 :=
    lookupSum_of_mem (accTotals_keys_nodup ts) hp
  have h2 : lookupSum (accTotals ts) p.1 = lookupSum [] p.1 + sumFor p.1 ts :=
    lookupSum_fold ts [] p.1
  rw [h1, show lookupSum [] p.1 = 0 from rfl, zero_add] at h2
  exact h2

/-- The selection loop either keeps its accumulator (when no entry is
strictly greater) or returns the first entry achieving the running
maximum. -/
theorem pickTopAux_spec : ∀ (l : List (String × ℚ)) (acc : Option String × ℚ),
    (pickTopAux acc l = acc ∧ ∀ p ∈ l, p.2 ≤ acc.2) ∨
    (∃ i, ∃ hi : i < l.length,
      pickTopAux acc l = (some (l.get ⟨i, hi⟩).1, (l.get ⟨i, hi⟩).2) ∧
      acc.2 < (l.get ⟨i, hi⟩).2 ∧
      (∀ j, ∀ hj : j < l.length, (l.get ⟨j, hj⟩).2 ≤ (l.get ⟨i, hi⟩).2) ∧
      (∀ j, j < i → ∀ hj : j < l.length, (l.get ⟨j, hj⟩).2 < (l.get ⟨i, hi⟩).2)) := by
  intro l
  induction l with
  | nil => intro acc; exact Or.inl ⟨rfl, by simp⟩
  | cons p rest ih =>
    intro acc
    simp only [pickTopAux]
    by_cases hlt : acc.2 < p.2
    · rw [if_pos hlt]
      rcases ih (some p.1, p.2) with ⟨heq, hall⟩ | ⟨i, hi, heq, hgt, hall, hfirst⟩
      · refine Or.inr ⟨0, Nat.succ_pos _, heq, hlt, ?_, ?_⟩
        · intro j hj
          cases j with
          | zero => exact le_refl _
          | succ j => exact hall _ (List.get_mem rest j (Nat.lt_of_succ_lt_succ hj))
        · intro j hj
          exact absurd hj (Nat.not_lt_zero j)
      · refine Or.inr ⟨i + 1, Nat.succ_lt_succ hi, heq, lt_trans hlt hgt, ?_, ?_⟩
        · intro j hj
          cases j with
          | zero => exact le_of_lt hgt
          | succ j => exact hall j (Nat.lt_of_succ_lt_succ hj)
        · intro j hjlt hj
          cases j with
          | zero => exact hgt
          | succ j => exact hfirst j (Nat.lt_of_succ_lt_succ hjlt) (Nat.lt_of_succ_lt_succ hj)
    · rw [if_neg hlt]
      rcases ih acc with ⟨heq, hall⟩ | ⟨i, hi, heq, hgt, hall, hfirst⟩
      · refine Or.inl ⟨heq, ?_⟩
        intro q hq
        rcases List.mem_cons.mp hq with h | h
        · exact h ▸ not_lt.mp hlt
        · exact hall q h
      · refine Or.inr ⟨i + 1, Nat.succ_lt_succ hi, heq, hgt, ?_, ?_⟩
        · intro j hj
          cases j with
          | zero => exact le_trans (not_lt.mp hlt) (le_of_lt hgt)
          | succ j => exact hall j (Nat.lt_of_succ_lt_succ hj)
        · intro j hjlt hj
          cases j with
          | zero => exact lt_of_le_of_lt (not_lt.mp hlt) hgt
          | succ j => exact hfirst j (Nat.lt_of_succ_lt_succ hjlt) (Nat.lt_of_succ_lt_succ hj)

/-- C7 counterexample: a non-empty list whose only transaction has amount
0.  Its category "Food" has the (unique, hence highest) summed amount 0,
but `getTopCategory` returns `{ category: null, amount: 0 }`, because the
loop starts from `topAmount = 0` with a strictly-greater comparison. -/
theorem getTopCategory_zero_list :
    getTopCategory [⟨"t1", "Lunch", 0, "Food", "2025-01-01", "c", "u"⟩] =
      some (none, 0) ∧
    getTopCategory [⟨"t1", "Lunch", 0, "Food", "2025-01-01", "c", "u"⟩] ≠
      some (some "Food", 0) := by
  constructor
  · decide
  · decide

/-- C7 amended: `getTopCategory` returns `none` on the empty list.  The
totals object pairs each category (keys in first-encounter iteration
order, no duplicates) with its summed amount over the list.  For a
non-empty list: if every category total is at most 0 the result is
`{ category: null, amount: 0 }` (the claimed behaviour fails here); and
whenever the result carries a category, that category is the first one in
iteration order whose total equals the strict maximum of the totals, which
is positive — ties resolve to the earlier category because the comparison
is strictly-greater, not ≥. -/
theorem getTopCategory_spec (ts : List Transaction) :
    (ts = [] → getTopCategory ts = none) ∧
    (∀ p ∈ accTotals ts, p.2 = sumFor p.1 ts) ∧
    ((accTotals ts).map Prod.fst = dedupFirst (ts.map Transaction.category)) ∧
    ((accTotals ts).map Prod.fst).Nodup ∧
    (ts ≠ [] → (∀ p ∈ accTotals ts, p.2 ≤ 0) → getTopCategory ts = some (none, 0)) ∧
    (ts ≠ [] → (∃ p ∈ accTotals ts, 0 < p.2) →
      ∃ c m, getTopCategory ts = some (some c, m)) ∧
    (ts ≠ [] → ∀ c m, getTopCategory ts = some (some c, m) →
      ∃ i, ∃ hi : i < (accTotals ts).length,
        (accTotals ts).get ⟨i, hi⟩ = (c, m) ∧ 0 < m ∧
        (∀ j, ∀ hj : j < (accTotals ts).length, ((accTotals ts).get ⟨j, hj⟩).2 ≤ m) ∧
        (∀ j, j < i → ∀ hj : j < (accTotals ts).length,
          ((accTotals ts).get ⟨j, hj⟩).2 < m)) := by
  have hne : ts ≠ [] → ts.isEmpty = false := by
    intro h
    cases ts with
    | nil => exact absurd rfl h
    | cons a l => rfl
  refine ⟨?_, ?_, accTotals_map_fst ts, accTotals_keys_nodup ts, ?_, ?_, ?_⟩
  · intro h; rw [getTopCategory, if_pos (by rw [h]; rfl)]
  · intro p hp; exact accTotals_sum ts hp
  · intro h hle
    rw [getTopCategory, if_neg (by rw [hne h]; exact Bool.false_ne_true)]
    rcases pickTopAux_spec (accTotals ts) (none, 0) with ⟨heq, -⟩ | ⟨i, hi, -, hgt, -, -⟩
    · rw [heq]
    · exact absurd (lt_of_lt_of_le hgt (hle _ (List.get_mem _ i hi))) (by norm_num)
  · intro h hpos
    rw [getTopCategory, if_neg (by rw [hne h]; exact Bool.false_ne_true)]
    rcases pickTopAux_spec (accTotals ts) (none, 0) with ⟨-, hall⟩ | ⟨i, hi, heq, -, -, -⟩
    · obtain ⟨p, hp, hppos⟩ := hpos
      exact absurd (lt_of_lt_of_le hppos (hall p hp)) (by norm_num)
    · exact ⟨_, _, by rw [heq]⟩
  · intro h c m hcm
    rw [getTopCategory, if_neg (by rw [hne h]; exact Bool.false_ne_true)] at hcm
    injection hcm with hcm
    rcases pickTopAux_spec (accTotals ts) (none, 0) with ⟨heq, -⟩ | ⟨i, hi, heq, hgt, hall, hfirst⟩
    · rw [heq] at hcm
      exact absurd (congrArg Prod.fst hcm) (by simp)
    · rw [heq] at hcm
      have hc : ((accTotals ts).get ⟨i, hi⟩).1 = c := by
        have := congrArg Prod.fst hcm
        simpa using this
      have hm : ((accTotals ts).get ⟨i, hi⟩).2 = m := congrArg Prod.snd hcm
      refine ⟨i, hi, ?_, ?_, ?_, ?_⟩
      · exact Prod.ext hc hm
      · exact hm ▸ hgt
      · intro j hj; exact hm ▸ hall j hj
      · intro j hjlt hj; exact hm ▸ hfirst j hjlt hj

/-- C7 witness: the degenerate branch applied to the concrete all-zero
list; the counterexample theorem shows the same input violates the
original claim. -/
theorem getTopCategory_spec_witness :
    getTopCategory [⟨"t2", "Water", 0, "Drinks", "2025-01-02", "c", "u"⟩] =
      some (none, 0) :=
  (getTopCategory_spec [⟨"t2", "Water", 0, "Drinks", "2025-01-02", "c", "u"⟩]).2.2.2.2.1
    (by decide) (by decide)

/-- C2 counterexample: one transaction with description "ab" (one
occurrence of the letter a and none in the other searchable fields), the
compiled matcher `/a/gi`, no category filter.  The first pipeline
application keeps the record and leaves the shared regex's `lastIndex` at
1; re-filtering its own output with the same matcher then starts the
description test at index 1, finds nothing, resets, fails the remaining
fields and drops the record: applying the pipeline twice is not the same
as applying it once. -/
theorem getFilteredTransactions_not_idempotent :
    (getFilteredTransactions envSample "" (some (litRegex ['a'])) "date-desc"
      [⟨"t1", "ab", 5, "xy", "2025-01-01", "c", "u"⟩] 0).1 =
      [⟨"t1", "ab", 5, "xy", "2025-01-01", "c", "u"⟩] ∧
    (getFilteredTransactions envSample "" (some (litRegex ['a'])) "date-desc"
      (getFilteredTransactions envSample "" (some (litRegex ['a'])) "date-desc"
        [⟨"t1", "ab", 5, "xy", "2025-01-01", "c", "u"⟩] 0).1
      (getFilteredTransactions envSample "" (some (litRegex ['a'])) "date-desc"
        [⟨"t1", "ab", 5, "xy", "2025-01-01", "c", "u"⟩] 0).2).1 = [] ∧
    ([] : List Transaction) ≠ [⟨"t1", "ab", 5, "xy", "2025-01-01", "c", "u"⟩] := by
  refine ⟨?_, ?_, ?_⟩ <;> decide

/-- Every comparator branch is either a difference of key values (date,
amount, and the default 0 branch) or the locale comparison. -/
theorem cmpTx_cases (env : JsEnv) (field : String) :
    (∃ f : Transaction → ℚ, ∀ a b, cmpTx env field a b = f a - f b) ∨
    (∀ a b, cmpTx env field a b = env.descCmp a.description b.description) := by
  by_cases h1 : field = "date"
  · refine Or.inl ⟨fun t => env.dateVal t.date, fun a b => ?_⟩
    simp only [cmpTx]; rw [if_pos h1]
  · by_cases h2 : field = "description"
    · refine Or.inr fun a b => ?_
      simp only [cmpTx]; rw [if_neg h1, if_pos h2]
    · by_cases h3 : field = "amount"
      · refine Or.inl ⟨fun t => t.amount, fun a b => ?_⟩
        simp only [cmpTx]; rw [if_neg h1, if_neg h2, if_pos h3]
      · refine Or.inl ⟨fun _ => 0, fun a b => ?_⟩
        simp only [cmpTx]; rw [if_neg h1, if_neg h2, if_neg h3]
        norm_num

theorem sortMult_cases (sortBy : String) : sortMult sortBy = 1 ∨ sortMult sortBy = -1 := by
  by_cases h : sortDir sortBy = "asc"
  · exact Or.inl (if_pos h)
  · exact Or.inr (if_neg h)

theorem sortRel_total (env : JsEnv) (sortBy : String)
    (hA : ∀ a b, env.descCmp a b ≤ 0 ↔ 0 ≤ env.descCmp b a) :
    ∀ a b, sortRel env sortBy a b ∨ sortRel env sortBy b a := by
  intro a b
  unfold sortRel
  rcases cmpTx_cases env (sortField sortBy) with ⟨f, hf⟩ | hd
  · rw [hf a b, hf b a]
    rcases le_total ((f a - f b) * sortMult sortBy) 0 with h | h
    · exact Or.inl h
    · right
      have he : (f b - f a) * sortMult sortBy = -((f a - f b) * sortMult sortBy) := by ring
      rw [he]
      linarith
  · rw [hd a b, hd b a]
    rcases sortMult_cases sortBy with hm | hm <;> rw [hm]
    · rw [mul_one, mul_one]
      by_cases h : env.descCmp a.description b.description ≤ 0
      · exact Or.inl h
      · exact Or.inr ((hA _ _).mpr (le_of_lt (lt_of_not_le h)))
    · by_cases h : env.descCmp a.description b.description ≤ 0
      · right
        have h2 : 0 ≤ env.descCmp b.description a.description := (hA _ _).mp h
        nlinarith
      · left
        have h2 : 0 ≤ env.descCmp a.description b.description := le_of_lt (lt_of_not_le h)
        nlinarith

theorem sortRel_trans (env : JsEnv) (sortBy : String)
    (hA : ∀ a b, env.descCmp a b ≤ 0 ↔ 0 ≤ env.descCmp b a)
    (hT : ∀ a b c, env.descCmp a b ≤ 0 → env.descCmp b c ≤ 0 → env.descCmp a c ≤ 0) :
    ∀ a b c, sortRel env sortBy a b → sortRel env sortBy b c → sortRel env sortBy a c := by
  intro a b c hab hbc
  unfold sortRel at hab hbc ⊢
  rcases cmpTx_cases env (sortField sortBy) with ⟨f, hf⟩ | hd
  · rw [hf] at hab hbc ⊢
    rcases sortMult_cases sortBy with hm | hm <;> rw [hm] at hab hbc ⊢ <;> nlinarith
  · rw [hd] at hab hbc ⊢
    rcases sortMult_cases sortBy with hm | hm <;> rw [hm] at hab hbc ⊢
    · rw [mul_one] at hab hbc ⊢
      exact hT _ _ _ hab hbc
    · have h1 : 0 ≤ env.descCmp a.description b.description := by nlinarith
      have h2 : 0 ≤ env.descCmp b.description c.description := by nlinarith
      have h3 : env.descCmp b.description a.description ≤ 0 := (hA _ _).mpr h1
      have h4 : env.descCmp c.description b.description ≤ 0 := (hA _ _).mpr h2
      have h5 : env.descCmp c.description a.description ≤ 0 := hT _ _ _ h4 h3
      have h6 : 0 ≤ env.descCmp a.description c.description := (hA _ _).mp h5
      nlinarith

theorem mem_sortTransactions {env : JsEnv} {sortBy : String}
    {ts : List Transaction} {x : Transaction} :
    x ∈ sortTransactions env sortBy ts ↔ x ∈ ts := by
  unfold sortTransactions
  exact (List.perm_insertionSort _ ts).mem_iff

theorem sorted_sortTransactions (env : JsEnv) (sortBy : String)
    (hA : ∀ a b, env.descCmp a b ≤ 0 ↔ 0 ≤ env.descCmp b a)
    (hT : ∀ a b c, env.descCmp a b ≤ 0 → env.descCmp b c ≤ 0 → env.descCmp a c ≤ 0)
    (ts : List Transaction) :
    List.Sorted (sortRel env sortBy) (sortTransactions env sortBy ts) := by
  haveI : IsTotal Transaction (sortRel env sortBy) := ⟨sortRel_total env sortBy hA⟩
  haveI : IsTrans Transaction (sortRel env sortBy) := ⟨sortRel_trans env sortBy hA hT⟩
  unfold sortTransactions
  exact List.sorted_insertionSort _ ts

theorem sortTransactions_eq_self (env : JsEnv) (sortBy : String)
    (l : List Transaction) (h : List.Sorted (sortRel env sortBy) l) :
    sortTransactions env sortBy l = l := by
  unfold sortTransactions
  exact h.insertionSort_eq

/-- C2 amended: the pipeline with a stateless search predicate (in
particular with no search active, or a matcher whose `lastIndex` is reset
before every test) is idempotent: re-filtering and re-sorting its own
output yields the same list, for every category filter, every predicate
and every sort key, provided the locale comparison is a total preorder
(sign-antisymmetric and transitive).  The actually-stored matcher is a
`g`-flagged `RegExp` whose `test` mutates `lastIndex`, and with it the
pipeline is not idempotent (see the counterexample). -/
theorem getFilteredTransactionsPure_idem (env : JsEnv) (catFilter : String)
    (pred : Option (Transaction → Bool)) (sortBy : String) (ts : List Transaction)
    (hA : ∀ a b, env.descCmp a b ≤ 0 ↔ 0 ≤ env.descCmp b a)
    (hT : ∀ a b c, env.descCmp a b ≤ 0 → env.descCmp b c ≤ 0 → env.descCmp a c ≤ 0) :
    getFilteredTransactionsPure env catFilter pred sortBy
      (getFilteredTransactionsPure env catFilter pred sortBy ts) =
    getFilteredTransactionsPure env catFilter pred sortBy ts := by
  set R := getFilteredTransactionsPure env catFilter pred sortBy ts with hR
  have hsorted : List.Sorted (sortRel env sortBy) R := by
    rw [hR]
    simp only [getFilteredTransactionsPure]
    exact sorted_sortTransactions env sortBy hA hT _
  have hmem : ∀ x ∈ R,
      (¬catFilter.isEmpty = true → (x.category == catFilter) = true) ∧
      (∀ p, pred = some p → p x = true) := by
    intro x hx
    rw [hR] at hx
    simp only [getFilteredTransactionsPure] at hx
    rw [mem_sortTransactions] at hx
    rcases pred with _ | p
    · constructor
      · intro hc
        rw [if_neg hc] at hx
        exact (List.mem_filter.mp hx).2
      · intro p hp; cases hp
    · rw [List.mem_filter] at hx
      constructor
      · intro hc
        have := hx.1
        rw [if_neg hc] at this
        exact (List.mem_filter.mp this).2
      · intro q hq
        injection hq with hq
        exact hq ▸ hx.2
  have hcat : (if catFilter.isEmpty then R else R.filter (fun t => t.category == catFilter)) = R := by
    by_cases hc : catFilter.isEmpty
    · rw [if_pos hc]
    · rw [if_neg hc]
      exact List.filter_eq_self.mpr fun a ha => (hmem a ha).1 hc
  show getFilteredTransactionsPure env catFilter pred sortBy R = R
  simp only [getFilteredTransactionsPure]
  rcases pred with _ | p
  · rw [hcat]
    exact sortTransactions_eq_self env sortBy R hsorted
  · show sortTransactions env sortBy
      (List.filter p (if catFilter.isEmpty then R else
        R.filter (fun t => t.category == catFilter))) = R
    rw [hcat, List.filter_eq_self.mpr fun a ha => (hmem a ha).2 p rfl]
    exact sortTransactions_eq_self env sortBy R hsorted

/-- C2 amended witness: the pure pipeline applied twice at a concrete
input (category filter "Food", a predicate keeping descriptions equal to
"Lunch", sort by amount ascending) agrees with one application. -/
theorem getFilteredTransactionsPure_idem_witness :
    getFilteredTransactionsPure envSample "Food" (some fun t => t.description == "Lunch")
      "amount-asc"
      (getFilteredTransactionsPure envSample "Food"
        (some fun t => t.description == "Lunch") "amount-asc"
        [⟨"t1", "Lunch", 5, "Food", "2025-01-01", "c", "u"⟩,
         ⟨"t2", "Tea", 2, "Drinks", "2025-01-02", "c", "u"⟩]) =
    getFilteredTransactionsPure envSample "Food" (some fun t => t.description == "Lunch")
      "amount-asc"
      [⟨"t1", "Lunch", 5, "Food", "2025-01-01", "c", "u"⟩,
       ⟨"t2", "Tea", 2, "Drinks", "2025-01-02", "c", "u"⟩] :=
  getFilteredTransactionsPure_idem envSample "Food"
    (some fun t => t.description == "Lunch") "amount-asc"
    [⟨"t1", "Lunch", 5, "Food", "2025-01-01", "c", "u"⟩,
     ⟨"t2", "Tea", 2, "Drinks", "2025-01-02", "c", "u"⟩]
    (fun a b => by norm_num [envSample]) (fun a b c h1 h2 => by norm_num [envSample])

end SFT
